import Mathlib

/-!
Verification development for the Community Safety App.

The repository ships the web client (frontend/src) and the mobile client
(frontend/mobile); the backend engine described by the specification
(IncidentStore, DeduplicationMatcher, CredibilityScorer, StatusStateMachine,
FollowUpScheduler, RewardLedger) is not part of the source tree, only its
HTTP callers are.  Client-side logic below is embedded directly from the
source files; engine-side operations are modelled from the specification and
are marked as such in their doc comments.
-/

namespace CommunitySafetyApp

/-! ## Reaction rows, aggregates and the reaction store -/

inductive ReactionKind where
  | like
  | unlike
deriving DecidableEq, Repr

inductive ReactionAction where
  | like
  | unlike
  | clear
deriving DecidableEq, Repr

structure ReactionRow where
  user : Nat
  target : Nat
  kind : ReactionKind
deriving DecidableEq, Repr

/-- Number of like rows targeting `t`. -/
def likeRows : List ReactionRow → Nat → Nat
  | [], _ => 0
  | r :: rs, t => (if r.target = t ∧ r.kind = ReactionKind.like then 1 else 0) + likeRows rs t

/-- Number of unlike rows targeting `t`. -/
def unlikeRows : List ReactionRow → Nat → Nat
  | [], _ => 0
  | r :: rs, t => (if r.target = t ∧ r.kind = ReactionKind.unlike then 1 else 0) + unlikeRows rs t

/-- Number of rows owned by the pair `(u, t)`. -/
def userTargetCount : List ReactionRow → Nat → Nat → Nat
  | [], _, _ => 0
  | r :: rs, u, t => (if r.user = u ∧ r.target = t then 1 else 0) + userTargetCount rs u t

/-- Drop every row owned by the pair `(u, t)`. -/
def removeRow : List ReactionRow → Nat → Nat → List ReactionRow
  | [], _, _ => []
  | r :: rs, u, t =>
    if r.user = u ∧ r.target = t then removeRow rs u t else r :: removeRow rs u t

/-- The reaction currently held by user `u` on target `t`. -/
def viewerOf : List ReactionRow → Nat → Nat → Option ReactionKind
  | [], _, _ => none
  | r :: rs, u, t => if r.user = u ∧ r.target = t then some r.kind else viewerOf rs u t

structure ReactionTotals where
  likes : Nat
  unlikes : Nat
  viewer : Option ReactionKind
deriving DecidableEq, Repr

/-- Server-side state: the authoritative reaction rows plus the stored
aggregate counters that are persisted alongside them. -/
structure StoreState where
  rows : List ReactionRow
  aggLikes : Nat → Nat
  aggUnlikes : Nat → Nat

def initialStore : StoreState :=
  { rows := [], aggLikes := fun _ => 0, aggUnlikes := fun _ => 0 }

/-- Modelled from the spec: the backend IncidentStore is absent from the
source tree (the repository holds only the two clients).  Spec 4.1 and 5:
`setReaction` runs as one atomic transaction that rewrites the reaction rows
for the `(user, target)` pair, recomputes the stored aggregate counters of
the touched target from the rows, writes both back, and returns the
recomputed totals. -/
def setReaction (st : StoreState) (u t : Nat) (a : ReactionAction) :
    StoreState × ReactionTotals :=
  let rows2 :=
    match a with
    | ReactionAction.clear => removeRow st.rows u t
    | ReactionAction.like =>
        { user := u, target := t, kind := ReactionKind.like } :: removeRow st.rows u t
    | ReactionAction.unlike =>
        { user := u, target := t, kind := ReactionKind.unlike } :: removeRow st.rows u t
  let st2 : StoreState :=
    { rows := rows2
      aggLikes := fun x => if x = t then likeRows rows2 t else st.aggLikes x
      aggUnlikes := fun x => if x = t then unlikeRows rows2 t else st.aggUnlikes x }
  (st2, { likes := st2.aggLikes t, unlikes := st2.aggUnlikes t, viewer := viewerOf rows2 u t })

/-- A serialised interleaving of reaction operations by arbitrary users on
arbitrary targets (spec 5: each operation is a single atomic transaction, so
any concurrent history is equivalent to some serial order). -/
def applyReactionOps (st : StoreState) (ops : List (Nat × Nat × ReactionAction)) : StoreState :=
  ops.foldl (fun s op => (setReaction s op.1 op.2.1 op.2.2).1) st

/-! ## Client-side reaction handling, embedded from the source -/

structure ClientReactionState where
  likesCount : Nat
  unlikesCount : Nat
  viewerReaction : Option ReactionKind
deriving DecidableEq, Repr

def kindToAction : ReactionKind → ReactionAction
  | ReactionKind.like => ReactionAction.like
  | ReactionKind.unlike => ReactionAction.unlike

/-- Embedded from src/frontend/src/components/IncidentCard.jsx
`handleReaction` (line 319) and the identical rule in
src/frontend/mobile/components/IncidentDetailSheet.tsx (lines 562, 567):
the client requests `clear` exactly when the viewer reaction already equals
the pressed action, otherwise it requests the pressed action. -/
def clientNextAction (viewer : Option ReactionKind) (pressed : ReactionKind) : ReactionAction :=
  if viewer = some pressed then ReactionAction.clear else kindToAction pressed

/-- Embedded from IncidentCard.jsx `handleReaction` (lines 323-328): the
client overwrites its reaction state with the totals returned by the server
response; it never increments the counts locally. -/
def clientApplyResult (totals : ReactionTotals) : ClientReactionState :=
  { likesCount := totals.likes
    unlikesCount := totals.unlikes
    viewerReaction := totals.viewer }

def handleReaction (cs : ClientReactionState) (st : StoreState) (u t : Nat)
    (pressed : ReactionKind) : ClientReactionState × StoreState :=
  let out := setReaction st u t (clientNextAction cs.viewerReaction pressed)
  (clientApplyResult out.2, out.1)

/-! ## Helper lemmas about the reaction model -/

theorem likeRows_removeRow_ne (rows : List ReactionRow) (u t x : Nat) (h : x ≠ t) :
    likeRows (removeRow rows u t) x = likeRows rows x := by
  induction rows with
  | nil => rfl
  | cons r rs ih =>
    by_cases hr : r.user = u ∧ r.target = t
    · simp [removeRow, likeRows, hr, ih]
      exact fun htx _ => h htx.symm
    · simp [removeRow, likeRows, hr, ih]

theorem unlikeRows_removeRow_ne (rows : List ReactionRow) (u t x : Nat) (h : x ≠ t) :
    unlikeRows (removeRow rows u t) x = unlikeRows rows x := by
  induction rows with
  | nil => rfl
  | cons r rs ih =>
    by_cases hr : r.user = u ∧ r.target = t
    · simp [removeRow, unlikeRows, hr, ih]
      exact fun htx _ => h htx.symm
    · simp [removeRow, unlikeRows, hr, ih]

theorem userTargetCount_removeRow_self (rows : List ReactionRow) (u t : Nat) :
    userTargetCount (removeRow rows u t) u t = 0 := by
  induction rows with
  | nil => rfl
  | cons r rs ih =>
    by_cases hr : r.user = u ∧ r.target = t
    · simp [removeRow, hr, ih]
    · simp [removeRow, userTargetCount, hr, ih]

theorem userTargetCount_removeRow_le (rows : List ReactionRow) (u t a b : Nat) :
    userTargetCount (removeRow rows u t) a b ≤ userTargetCount rows a b := by
  induction rows with
  | nil => exact Nat.le_refl 0
  | cons r rs ih =>
    by_cases hr : r.user = u ∧ r.target = t
    · simp only [removeRow, hr, if_pos]
      calc userTargetCount (removeRow rs u t) a b ≤ userTargetCount rs a b := ih
        _ ≤ userTargetCount (r :: rs) a b := by
            simp only [userTargetCount]
            omega
    · simp only [removeRow, hr, if_neg, not_false_iff, userTargetCount]
      omega

/-- Aggregate counters agree with the authoritative rows on every target. -/
def aggConsistent (st : StoreState) : Prop :=
  ∀ t, st.aggLikes t = likeRows st.rows t ∧ st.aggUnlikes t = unlikeRows st.rows t

theorem aggConsistent_setReaction (st : StoreState) (u t : Nat) (a : ReactionAction)
    (h : aggConsistent st) : aggConsistent (setReaction st u t a).1 := by
  intro x
  by_cases hx : x = t
  · subst hx
    cases a <;> simp [setReaction]
  · cases a <;>
      simp [setReaction, hx, likeRows, unlikeRows, (h x).1, (h x).2,
        likeRows_removeRow_ne st.rows u t x hx, unlikeRows_removeRow_ne st.rows u t x hx] <;>
      omega

theorem aggConsistent_applyReactionOps (st : StoreState)
    (ops : List (Nat × Nat × ReactionAction)) (h : aggConsistent st) :
    aggConsistent (applyReactionOps st ops) := by
  induction ops generalizing st with
  | nil => exact h
  | cons op rest ih =>
    exact ih (setReaction st op.1 op.2.1 op.2.2).1
      (aggConsistent_setReaction st op.1 op.2.1 op.2.2 h)

theorem aggConsistent_initialStore : aggConsistent initialStore := by
  intro t
  exact ⟨rfl, rfl⟩

theorem userTargetCount_setReaction_le_one (st : StoreState) (u t a b : Nat)
    (act : ReactionAction) (h : userTargetCount st.rows a b ≤ 1) :
    userTargetCount (setReaction st u t act).1.rows a b ≤ 1 := by
  by_cases hab : u = a ∧ t = b
  · obtain ⟨ha, hb⟩ := hab
    subst ha
    subst hb
    cases act <;>
      simp [setReaction, userTargetCount, userTargetCount_removeRow_self]
  · have hle := userTargetCount_removeRow_le st.rows u t a b
    cases act <;> simp [setReaction, userTargetCount, hab] <;> omega

/-- At most one active reaction row per `(user, target)` pair, everywhere. -/
def atMostOnePerPair (rows : List ReactionRow) : Prop :=
  ∀ a b, userTargetCount rows a b ≤ 1

theorem atMostOnePerPair_applyReactionOps (st : StoreState)
    (ops : List (Nat × Nat × ReactionAction)) (h : atMostOnePerPair st.rows) :
    atMostOnePerPair (applyReactionOps st ops).rows := by
  induction ops generalizing st with
  | nil => exact h
  | cons op rest ih =>
    exact ih (setReaction st op.1 op.2.1 op.2.2).1
      (fun a b => userTargetCount_setReaction_le_one st op.1 op.2.1 a b op.2.2 (h a b))

theorem setReaction_totals (st : StoreState) (u t : Nat) (a : ReactionAction) :
    (setReaction st u t a).2.likes = likeRows (setReaction st u t a).1.rows t ∧
    (setReaction st u t a).2.unlikes = unlikeRows (setReaction st u t a).1.rows t := by
  cases a <;> simp [setReaction]

/-- Claim C1: under any serialised interleaving of reaction operations the
stored aggregate counters equal the number of active reaction rows targeting
each incident, each setReaction call returns totals recomputed from the
rows it just wrote, and the client copies the returned totals into its
state instead of incrementing them locally. -/
theorem c1_reaction_aggregates_match_rows :
    (∀ (ops : List (Nat × Nat × ReactionAction)) (t : Nat),
      (applyReactionOps initialStore ops).aggLikes t
          = likeRows (applyReactionOps initialStore ops).rows t ∧
      (applyReactionOps initialStore ops).aggUnlikes t
          = unlikeRows (applyReactionOps initialStore ops).rows t) ∧
    (∀ (cs : ClientReactionState) (st : StoreState) (u t : Nat) (pressed : ReactionKind),
      (handleReaction cs st u t pressed).1.likesCount
          = likeRows (handleReaction cs st u t pressed).2.rows t ∧
      (handleReaction cs st u t pressed).1.unlikesCount
          = unlikeRows (handleReaction cs st u t pressed).2.rows t ∧
      (handleReaction cs st u t pressed).1
          = clientApplyResult
              (setReaction st u t (clientNextAction cs.viewerReaction pressed)).2) := by
  constructor
  · intro ops t
    exact aggConsistent_applyReactionOps initialStore ops aggConsistent_initialStore t
  · intro cs st u t pressed
    have h := setReaction_totals st u t (clientNextAction cs.viewerReaction pressed)
    exact ⟨h.1, h.2, rfl⟩

/-- Claim C8: every reaction store reachable from the empty store holds at
most one active reaction per (user, target) pair, setting a reaction
overwrites the pair's previous row in place, and both clients request the
clear action exactly when the viewer reaction already equals the pressed
action. -/
theorem c8_one_reaction_per_user_target :
    (∀ (ops : List (Nat × Nat × ReactionAction)) (u t : Nat),
      userTargetCount (applyReactionOps initialStore ops).rows u t ≤ 1) ∧
    (∀ (st : StoreState) (u t : Nat) (k : ReactionKind),
      viewerOf (setReaction st u t (kindToAction k)).1.rows u t = some k) ∧
    (∀ (viewer : Option ReactionKind) (pressed : ReactionKind),
      clientNextAction viewer pressed = ReactionAction.clear ↔ viewer = some pressed) := by
  refine ⟨?_, ?_, ?_⟩
  · intro ops u t
    refine atMostOnePerPair_applyReactionOps initialStore ops ?_ u t
    intro a b
    simp [initialStore, userTargetCount]
  · intro st u t k
    cases k <;> simp [setReaction, kindToAction, viewerOf]
  · intro viewer pressed
    constructor
    · intro h
      by_contra hv
      cases pressed <;> simp [clientNextAction, hv, kindToAction] at h
    · intro h
      simp [clientNextAction, h]

/-! ## Role sets across the web components -/

/-- Embedded from src/frontend/src/components/IncidentCard.jsx line 18. -/
def VERIFIER_ROLES_IncidentCard : List String := ["admin", "staff", "officer"]

/-- Embedded from src/frontend/src/components/NotificationBell.jsx line 5. -/
def VERIFIER_ROLES_NotificationBell : List String := ["admin", "reporter", "officer"]

/-- Embedded from src/frontend/src/components/IncidentApprovals.jsx line 11. -/
def APPROVER_ROLES_IncidentApprovals : List String := ["officer", "staff", "admin"]

/-- JS `Set.has` membership test on a role set. -/
def roleSetHas : List String → String → Bool
  | [], _ => false
  | r :: rs, x => if x = r then true else roleSetHas rs x

theorem roleSetHas_iff (roles : List String) (r : String) :
    roleSetHas roles r = true ↔ r ∈ roles := by
  induction roles with
  | nil => simp [roleSetHas]
  | cons hd tl ih =>
    by_cases h : r = hd <;> simp [roleSetHas, h, ih]

/-- Claim C9 counterexample: the role string staff has the verifier
capability in IncidentCard but not in NotificationBell, and reporter has it
only in NotificationBell, so the components do not grant elevated
capability to the same set of roles and no single shared capability
function is consulted. -/
theorem c9_counterexample_role_sets_differ :
    roleSetHas VERIFIER_ROLES_IncidentCard "staff" = true ∧
    roleSetHas VERIFIER_ROLES_NotificationBell "staff" = false ∧
    roleSetHas VERIFIER_ROLES_NotificationBell "reporter" = true ∧
    roleSetHas VERIFIER_ROLES_IncidentCard "reporter" = false ∧
    ¬ (∀ r : String, roleSetHas VERIFIER_ROLES_IncidentCard r
        = roleSetHas VERIFIER_ROLES_NotificationBell r) := by
  refine ⟨by decide, by decide, by decide, by decide, fun hall => ?_⟩
  have h := hall "staff"
  simp [VERIFIER_ROLES_IncidentCard, VERIFIER_ROLES_NotificationBell, roleSetHas] at h

/-- Claim C9 amended: each component checks membership of the actor role in
its own hard-coded role set; IncidentCard and IncidentApprovals agree on
the set containing admin, staff and officer, while NotificationBell uses
admin, reporter and officer, which differs from the other two exactly on
staff and reporter. -/
theorem c9_role_sets_amended :
    (∀ r : String, roleSetHas VERIFIER_ROLES_IncidentCard r
        = roleSetHas APPROVER_ROLES_IncidentApprovals r) ∧
    roleSetHas VERIFIER_ROLES_NotificationBell "staff" = false ∧
    roleSetHas VERIFIER_ROLES_IncidentCard "staff" = true ∧
    roleSetHas VERIFIER_ROLES_NotificationBell "reporter" = true ∧
    roleSetHas VERIFIER_ROLES_IncidentCard "reporter" = false := by
  refine ⟨fun r => ?_, by decide, by decide, by decide, by decide⟩
  have hmem : r ∈ VERIFIER_ROLES_IncidentCard ↔ r ∈ APPROVER_ROLES_IncidentApprovals := by
    simp only [VERIFIER_ROLES_IncidentCard, APPROVER_ROLES_IncidentApprovals,
      List.mem_cons, List.not_mem_nil, or_false]
    tauto
  cases hc : roleSetHas VERIFIER_ROLES_IncidentCard r <;>
    cases hd : roleSetHas APPROVER_ROLES_IncidentApprovals r
  · rfl
  · exact absurd ((roleSetHas_iff VERIFIER_ROLES_IncidentCard r).2
      (hmem.2 ((roleSetHas_iff APPROVER_ROLES_IncidentApprovals r).1 hd)))
      (by simp [hc])
  · exact absurd ((roleSetHas_iff APPROVER_ROLES_IncidentApprovals r).2
      (hmem.1 ((roleSetHas_iff VERIFIER_ROLES_IncidentCard r).1 hc)))
      (by simp [hd])
  · rfl

/-! ## Comment submission in the web client -/

/-- JS whitespace characters stripped by String.trim (the ASCII ones the
client can receive from its textarea). -/
def jsWhitespace (c : Char) : Bool :=
  c == ' ' || c == '\t' || c == '\n' || c == '\r'

/-- JS String.trim: strip leading and trailing whitespace. -/
def jsTrim (s : String) : String :=
  String.mk (((s.data.dropWhile jsWhitespace).reverse.dropWhile jsWhitespace).reverse)

inductive CommentSubmitAction where
  | requireAuth
  | localError (message : String)
  | sendRequest (body : String)
deriving DecidableEq, Repr

/-- Embedded from src/frontend/src/components/IncidentCard.jsx
`handleCommentSubmit` (lines 274-312): unauthenticated submits bounce to the
auth modal; a body that is empty after trimming yields the local error
without any createComment request; otherwise the trimmed body is sent. -/
def handleCommentSubmit (authenticated : Bool) (commentBody : String) : CommentSubmitAction :=
  if authenticated = false then CommentSubmitAction.requireAuth
  else
    let body := jsTrim commentBody
    if body = "" then CommentSubmitAction.localError "Comment cannot be empty."
    else CommentSubmitAction.sendRequest body

/-- Claim C10: in the web client, a comment whose body trims to the empty
string produces the local error message and no createComment request, and a
createComment request is issued only for a non-empty trimmed body (the
request carries the trimmed body). -/
theorem c10_comment_submit_trim_guard (authenticated : Bool) (commentBody : String) :
    (authenticated = true → jsTrim commentBody = "" →
      handleCommentSubmit authenticated commentBody
        = CommentSubmitAction.localError "Comment cannot be empty.") ∧
    (∀ body, handleCommentSubmit authenticated commentBody
        = CommentSubmitAction.sendRequest body →
      jsTrim commentBody ≠ "" ∧ body = jsTrim commentBody) := by
  constructor
  · intro ha he
    simp [handleCommentSubmit, ha, he]
  · intro body hreq
    cases authenticated with
    | false => simp [handleCommentSubmit] at hreq
    | true =>
      by_cases he : jsTrim commentBody = ""
      · simp [handleCommentSubmit, he] at hreq
      · simp [handleCommentSubmit, he] at hreq
        exact ⟨he, hreq.symm⟩

/-- Witness for claim C10 at concrete inputs: a whitespace-only body yields
the local error, and a padded body issues the request with the trimmed
body. -/
theorem c10_comment_submit_trim_guard_witness :
    handleCommentSubmit true "  "
      = CommentSubmitAction.localError "Comment cannot be empty." ∧
    (jsTrim " hi " ≠ "" ∧ "hi" = jsTrim " hi ") := by
  constructor
  · exact (c10_comment_submit_trim_guard true "  ").1 rfl (by decide)
  · exact (c10_comment_submit_trim_guard true " hi ").2 "hi" (by decide)

/-! ## Status and the follow-up scheduler -/

inductive Status where
  | unverified
  | communityConfirmed
  | officialConfirmed
  | resolved
deriving DecidableEq, Repr

/-- Tunable first check-in offset (spec 8 scenario: about 30 minutes). -/
def firstOffsetMinutes : Nat := 30

/-- Tunable later check-in offset (spec 4.5: a longer offset for the next). -/
def nextOffsetMinutes : Nat := 360

/-- Scheduler state of one incident: its status, the pending due timestamp,
the durable set of already-fired due timestamps, and the log of check-in-due
events emitted to the NotificationDispatcher. -/
structure SchedState where
  status : Status
  due : Option Nat
  fired : List Nat
  log : List Nat
deriving DecidableEq, Repr

/-- Modelled from the spec: incident creation (spec 4.5) schedules the first
check-in at a fixed offset from the creation time. -/
def initSched (now : Nat) : SchedState :=
  { status := Status.unverified
    due := some (now + firstOffsetMinutes)
    fired := []
    log := [] }

inductive SchedEvent where
  | setStatus (s : Status) (now : Nat)
  | humanFollowUp (now : Nat)
  | sweep (now : Nat)
deriving DecidableEq, Repr

/-- Modelled from the spec: the FollowUpScheduler is absent from the source
tree.  Spec 4.3 and 4.5: a status change short of resolved reschedules the
check-in while reaching resolved clears follow_up_due_at and cancels all
pending schedules; a human FollowUp cancels the pending prompt and
reschedules relative to its own timestamp; the background sweep fires a due
check-in and clears the due timestamp as one atomic step, consulting the
durable fired marker so that an already-fired due date is never re-notified
(spec 5 and 9). -/
def schedStep (st : SchedState) : SchedEvent → SchedState
  | SchedEvent.setStatus s now =>
      if s = Status.resolved then { st with status := s, due := none }
      else { st with status := s, due := some (now + nextOffsetMinutes) }
  | SchedEvent.humanFollowUp now =>
      if st.status = Status.resolved then st
      else { st with due := some (now + nextOffsetMinutes) }
  | SchedEvent.sweep now =>
      match st.due with
      | none => st
      | some t =>
          if t ≤ now then
            if t ∈ st.fired then { st with due := none }
            else { st with due := none, fired := t :: st.fired, log := st.log ++ [t] }
          else st

/-- A serialised history of status changes, human follow-ups and background
sweeps (spec 5: firing plus clearing is a single atomic step, so overlapping
sweeps serialise). -/
def runSched (st : SchedState) (evs : List SchedEvent) : SchedState :=
  evs.foldl schedStep st

/-- Every logged emission is recorded in the durable fired marker, and the
log never repeats a due timestamp. -/
def schedInv (st : SchedState) : Prop :=
  st.log.Nodup ∧ ∀ t ∈ st.log, t ∈ st.fired

theorem schedInv_step (st : SchedState) (e : SchedEvent) (h : schedInv st) :
    schedInv (schedStep st e) := by
  obtain ⟨hnodup, hsub⟩ := h
  cases e with
  | setStatus s now =>
    by_cases hs : s = Status.resolved <;> simp [schedStep, hs] <;> exact ⟨hnodup, hsub⟩
  | humanFollowUp now =>
    by_cases hs : st.status = Status.resolved <;> simp [schedStep, hs] <;> exact ⟨hnodup, hsub⟩
  | sweep now =>
    cases hdue : st.due with
    | none => simpa [schedStep, hdue] using ⟨hnodup, hsub⟩
    | some t =>
      by_cases hle : t ≤ now
      · by_cases hf : t ∈ st.fired
        · simpa [schedStep, hdue, hle, hf] using ⟨hnodup, hsub⟩
        · have htlog : t ∉ st.log := fun hm => hf (hsub t hm)
          constructor
          · simp [schedStep, hdue, hle, hf, List.nodup_append, hnodup, htlog]
          · intro x hx
            simp [schedStep, hdue, hle, hf] at hx ⊢
            rcases hx with hx | hx
            · exact Or.inr (hsub x hx)
            · exact Or.inl hx
      · simpa [schedStep, hdue, hle] using ⟨hnodup, hsub⟩

theorem schedInv_runSched (st : SchedState) (evs : List SchedEvent) (h : schedInv st) :
    schedInv (runSched st evs) := by
  induction evs generalizing st with
  | nil => exact h
  | cons e rest ih => exact ih (schedStep st e) (schedInv_step st e h)

/-- A resolved incident holds no pending due timestamp. -/
def resolvedClear (st : SchedState) : Prop :=
  st.status = Status.resolved → st.due = none

theorem resolvedClear_step (st : SchedState) (e : SchedEvent) (h : resolvedClear st) :
    resolvedClear (schedStep st e) := by
  cases e with
  | setStatus s now =>
    by_cases hs : s = Status.resolved <;> simp [resolvedClear, schedStep, hs]
  | humanFollowUp now =>
    by_cases hs : st.status = Status.resolved
    · simpa [resolvedClear, schedStep, hs] using h
    · simp [resolvedClear, schedStep, hs]
  | sweep now =>
    cases hdue : st.due with
    | none => simp [resolvedClear, schedStep, hdue]
    | some t =>
      by_cases hle : t ≤ now
      · by_cases hf : t ∈ st.fired <;> simp [resolvedClear, schedStep, hdue, hle, hf]
      · simpa [resolvedClear, schedStep, hdue, hle] using h

theorem resolvedClear_runSched (st : SchedState) (evs : List SchedEvent)
    (h : resolvedClear st) : resolvedClear (runSched st evs) := by
  induction evs generalizing st with
  | nil => exact h
  | cons e rest ih => exact ih (schedStep st e) (resolvedClear_step st e h)

/-! ## The web client resolved payload -/

structure UpdateIncidentPayload where
  status : Option Status
  followUpDueAt : Option (Option Nat)
deriving DecidableEq, Repr

/-- Embedded from src/frontend/src/components/IncidentCard.jsx
`handleMarkResolved` (lines 371-374) and the identical handler in the second
card component: the update payload sets status resolved and explicitly nulls
follow_up_due_at. -/
def markResolvedPayload : UpdateIncidentPayload :=
  { status := some Status.resolved, followUpDueAt := some none }

/-- Claim C3: in every scheduler state reachable from incident creation, a
resolved status implies a null follow_up_due_at (reaching resolved clears it
and cancels pending check-ins), and the web client resolve action itself
sends status resolved together with a null follow_up_due_at. -/
theorem c3_resolved_has_no_follow_up_due :
    (∀ (now0 : Nat) (evs : List SchedEvent),
      (runSched (initSched now0) evs).status = Status.resolved →
      (runSched (initSched now0) evs).due = none) ∧
    markResolvedPayload.status = some Status.resolved ∧
    markResolvedPayload.followUpDueAt = some none := by
  refine ⟨fun now0 evs => ?_, rfl, rfl⟩
  exact resolvedClear_runSched (initSched now0) evs (by simp [resolvedClear, initSched])

/-- Witness for claim C3 at a concrete history: creating an incident and
marking it resolved leaves no due timestamp. -/
theorem c3_resolved_has_no_follow_up_due_witness :
    (runSched (initSched 0) [SchedEvent.setStatus Status.resolved 5]).due = none :=
  c3_resolved_has_no_follow_up_due.1 0 [SchedEvent.setStatus Status.resolved 5] (by decide)

/-- Claim C7: over any serialised history of sweeps, status changes and
follow-ups, the log of check-in-due events emitted to the
NotificationDispatcher never contains the same due timestamp twice, so each
(incident, due timestamp) pair is notified at most once even under repeated
or overlapping sweeps. -/
theorem c7_due_notification_at_most_once (now0 : Nat) (evs : List SchedEvent) :
    (runSched (initSched now0) evs).log.Nodup :=
  (schedInv_runSched (initSched now0) evs (by simp [schedInv, initSched])).1

/-! ## Roles and recording a follow-up in the engine -/

inductive Role where
  | resident
  | reporter
  | staff
  | officer
  | admin
deriving DecidableEq, Repr

/-- Modelled from the spec: the capability(actorRole, operation) predicate
for the status-change operation (spec 4.3 and the design note in spec 9);
the elevated roles are the moderator and official roles, matching the role
strings the clients treat as verifiers. -/
def capabilityStatusChange : Role → Bool
  | Role.staff => true
  | Role.officer => true
  | Role.admin => true
  | _ => false

structure FollowUpInput where
  proposedStatus : Option Status
  notes : Option String
  stillHappening : Option Bool
  feelSafeNow : Option Bool
  contactedAuthorities : String
  safetySentiment : String
deriving DecidableEq, Repr

structure StoredFollowUp where
  notes : Option String
  stillHappening : Option Bool
  feelSafeNow : Option Bool
  contactedAuthorities : String
  safetySentiment : String
  appliedStatus : Option Status
deriving DecidableEq, Repr

/-- The persisted copy of a FollowUp: its notes and structured prompts,
with the status that was actually applied (none when rejected or absent). -/
def storeFields (fu : FollowUpInput) (applied : Option Status) : StoredFollowUp :=
  { notes := fu.notes
    stillHappening := fu.stillHappening
    feelSafeNow := fu.feelSafeNow
    contactedAuthorities := fu.contactedAuthorities
    safetySentiment := fu.safetySentiment
    appliedStatus := applied }

structure EngineIncident where
  status : Status
  followUps : List StoredFollowUp
deriving DecidableEq, Repr

inductive EngineError where
  | validationError
  | notFoundError
  | forbiddenError
  | conflictError
  | schedulingError
deriving DecidableEq, Repr

structure RecordFollowUpResult where
  incident : EngineIncident
  statusError : Option EngineError
deriving DecidableEq, Repr

/-- Modelled from the spec: IncidentStore.recordFollowUp is absent from the
source tree.  Spec 4.3 and 7: a FollowUp whose actor lacks the status-change
capability but proposes a status fails with ForbiddenError for the status
field, while the FollowUp's notes and structured prompts are still recorded
(documented partial acceptance, not a rollback); an authorized proposal
applies the status. -/
def recordFollowUp (inc : EngineIncident) (fu : FollowUpInput) (actor : Role) :
    RecordFollowUpResult :=
  match fu.proposedStatus with
  | none =>
      { incident := { inc with followUps := inc.followUps ++ [storeFields fu none] }
        statusError := none }
  | some s =>
      if capabilityStatusChange actor then
        { incident := { status := s, followUps := inc.followUps ++ [storeFields fu (some s)] }
          statusError := none }
      else
        { incident := { inc with followUps := inc.followUps ++ [storeFields fu none] }
          statusError := some EngineError.forbiddenError }

/-- Claim C2: a FollowUp proposing a status change from an actor without
the status-change capability yields ForbiddenError for the status field,
leaves the incident status unchanged, and still appends the FollowUp with
its notes and structured prompts (no rollback of the non-status fields). -/
theorem c2_forbidden_status_keeps_notes (inc : EngineIncident) (fu : FollowUpInput)
    (actor : Role) (s : Status) (hrole : capabilityStatusChange actor = false)
    (hs : fu.proposedStatus = some s) :
    (recordFollowUp inc fu actor).statusError = some EngineError.forbiddenError ∧
    (recordFollowUp inc fu actor).incident.status = inc.status ∧
    (recordFollowUp inc fu actor).incident.followUps
      = inc.followUps ++ [storeFields fu none] := by
  simp [recordFollowUp, hs, hrole]

/-- Witness for claim C2: a resident proposing resolved on an unverified
incident is rejected for the status yet the note is persisted. -/
theorem c2_forbidden_status_keeps_notes_witness :
    (recordFollowUp ⟨Status.unverified, []⟩
        ⟨some Status.resolved, some "responders on site", some true, some false, "911", "uneasy"⟩
        Role.resident).statusError = some EngineError.forbiddenError ∧
    (recordFollowUp ⟨Status.unverified, []⟩
        ⟨some Status.resolved, some "responders on site", some true, some false, "911", "uneasy"⟩
        Role.resident).incident.status = Status.unverified ∧
    (recordFollowUp ⟨Status.unverified, []⟩
        ⟨some Status.resolved, some "responders on site", some true, some false, "911", "uneasy"⟩
        Role.resident).incident.followUps
      = [] ++ [storeFields
          ⟨some Status.resolved, some "responders on site", some true, some false, "911", "uneasy"⟩
          none] :=
  c2_forbidden_status_keeps_notes ⟨Status.unverified, []⟩
    ⟨some Status.resolved, some "responders on site", some true, some false, "911", "uneasy"⟩
    Role.resident Status.resolved rfl rfl

/-! ## The credibility scorer -/

/-- Clamp to the unit interval (spec 4.4: output is clamped to [0,1]). -/
def clamp01 (x : ℚ) : ℚ :=
  if x < 0 then 0 else if 1 < x then 1 else x

theorem clamp01_nonneg (x : ℚ) : 0 ≤ clamp01 x := by
  unfold clamp01
  split_ifs with h1 h2
  · norm_num
  · norm_num
  · linarith [not_lt.1 h1]

theorem clamp01_le_one (x : ℚ) : clamp01 x ≤ 1 := by
  unfold clamp01
  split_ifs with h1 h2
  · norm_num
  · norm_num
  · linarith [not_lt.1 h2]

structure ScoreInput where
  confirms : Nat
  disconfirms : Nat
  reporterConfirmed : Nat
  reporterRejected : Nat
  hoursSinceCorroboration : Nat
  status : Status
deriving DecidableEq, Repr

/-- Modelled from the spec: corroboration signal, confirming minus
disconfirming signals over their smoothed total (spec 4.4a). -/
def corroboration (i : ScoreInput) : ℚ :=
  ((i.confirms : ℚ) - (i.disconfirms : ℚ)) / ((i.confirms : ℚ) + (i.disconfirms : ℚ) + 1)

/-- Modelled from the spec: smoothed reporter trust from the historical
confirmed-versus-rejected ratio (spec 4.4b). -/
def reporterTrust (i : ScoreInput) : ℚ :=
  ((i.reporterConfirmed : ℚ) + 1) / ((i.reporterConfirmed : ℚ) + (i.reporterRejected : ℚ) + 2)

/-- Modelled from the spec: time decay toward the neutral midpoint as the
incident ages without corroboration (spec 4.4c). -/
def decayWeight (i : ScoreInput) : ℚ :=
  24 / (24 + (i.hoursSinceCorroboration : ℚ))

/-- Modelled from the spec: official or community confirmation raises the
floor (spec 4.4d); weights are tunable, not invariants. -/
def statusBoost : Status → ℚ
  | Status.unverified => 0
  | Status.communityConfirmed => 1/10
  | Status.officialConfirmed => 1/5
  | Status.resolved => 1/5

/-- Modelled from the spec: the CredibilityScorer is absent from the source
tree.  Spec 4.4: a pure function of the incident state combining the four
components, clamped to the unit interval, with no hidden randomness. -/
def credibilityScore (i : ScoreInput) : ℚ :=
  clamp01 (1/2 + decayWeight i * (corroboration i / 4 + (reporterTrust i - 1/2) / 4)
    + statusBoost i.status)

/-- Embedded from src/frontend/src/components/IncidentCard.jsx
`credibilityPercent` (lines 174-177): a missing score renders as 0,
otherwise the score is scaled by 100 and rounded. -/
def credibilityPercent (score : Option ℚ) : ℤ :=
  match score with
  | none => 0
  | some s => round (s * 100)

/-- Claim C4: the credibility score always lies in the unit interval, the
percentage the client derives from it lies in [0, 100], and the scorer is
deterministic: identical incident state yields the identical score. -/
theorem c4_credibility_bounded_and_deterministic (i : ScoreInput) :
    0 ≤ credibilityScore i ∧ credibilityScore i ≤ 1 ∧
    0 ≤ credibilityPercent (some (credibilityScore i)) ∧
    credibilityPercent (some (credibilityScore i)) ≤ 100 ∧
    (∀ j : ScoreInput, j = i → credibilityScore j = credibilityScore i) := by
  have h0 : 0 ≤ credibilityScore i := clamp01_nonneg _
  have h1 : credibilityScore i ≤ 1 := clamp01_le_one _
  refine ⟨h0, h1, ?_, ?_, fun j hj => by rw [hj]⟩
  · show (0 : ℤ) ≤ round (credibilityScore i * 100)
    rw [round_eq]
    refine Int.le_floor.2 ?_
    push_cast
    nlinarith
  · show round (credibilityScore i * 100) ≤ 100
    rw [round_eq]
    have : (⌊credibilityScore i * 100 + 1 / 2⌋ : ℤ) < 101 := by
      refine Int.floor_lt.2 ?_
      push_cast
      nlinarith
    omega

/-- Witness for claim C4 at a concrete incident state. -/
theorem c4_credibility_bounded_and_deterministic_witness :
    0 ≤ credibilityScore ⟨2, 1, 3, 1, 5, Status.communityConfirmed⟩ ∧
    credibilityScore ⟨2, 1, 3, 1, 5, Status.communityConfirmed⟩
      = credibilityScore ⟨2, 1, 3, 1, 5, Status.communityConfirmed⟩ :=
  ⟨(c4_credibility_bounded_and_deterministic ⟨2, 1, 3, 1, 5, Status.communityConfirmed⟩).1,
    (c4_credibility_bounded_and_deterministic
      ⟨2, 1, 3, 1, 5, Status.communityConfirmed⟩).2.2.2.2
      ⟨2, 1, 3, 1, 5, Status.communityConfirmed⟩ rfl⟩

/-! ## The reward ledger and the mobile admin rewards editor -/

inductive LedgerStatus where
  | posted
  | pending
  | fulfilled
  | cancelled
deriving DecidableEq, Repr

inductive LedgerSource where
  | reportConfirmed
  | redemption
  | manualAdjustment
deriving DecidableEq, Repr

structure RewardLedgerEntry where
  user : Nat
  delta : Int
  source : LedgerSource
  entryStatus : LedgerStatus
deriving DecidableEq, Repr

/-- Spec 3: only posted and fulfilled entries count toward the balance. -/
def countsTowardBalance (e : RewardLedgerEntry) : Bool :=
  e.entryStatus == LedgerStatus.posted || e.entryStatus == LedgerStatus.fulfilled

def entryContribution (u : Nat) (e : RewardLedgerEntry) : Int :=
  if e.user = u then (if countsTowardBalance e then e.delta else 0) else 0

/-- Sum of the posted and fulfilled deltas of one user. -/
def ledgerBalance : List RewardLedgerEntry → Nat → Int
  | [], _ => 0
  | e :: rest, u => entryContribution u e + ledgerBalance rest u

/-- Server reward state: the append-only ledger plus the stored
reward_points column the clients display (searchUsers returns it). -/
structure RewardState where
  ledger : List RewardLedgerEntry
  displayed : Nat → Int

def bump (f : Nat → Int) (u : Nat) (d : Int) : Nat → Int :=
  fun v => if v = u then f v + d else f v

/-- Modelled from the spec: the handler behind PATCH /users/id/rewards is
backend code absent from the source tree — the client wrapper
updateUserRewards in src/frontend/mobile/utils/api.ts (lines 470-475) only
issues the request with an absolute reward_points value.  Spec 3 lists
manual-adjustment among the ledger sources and spec 4.6 makes append the
only mutation with the balance always derived, so the handler appends one
posted manual-adjustment entry whose delta brings the user's derived
balance to the requested value. -/
def updateUserRewards (st : RewardState) (userId : Nat) (rewardPoints : Int) : RewardState :=
  let delta := rewardPoints - ledgerBalance st.ledger userId
  { ledger := st.ledger ++
      [{ user := userId, delta := delta, source := LedgerSource.manualAdjustment,
          entryStatus := LedgerStatus.posted }]
    displayed := bump st.displayed userId delta }

/-- Embedded from src/unnamed/part_014 `handleRewardSave` (lines 124-138):
the admin draft is sent only when it parses to a non-negative number. -/
def handleRewardSave (st : RewardState) (userId : Nat) (draft : Option Int) : RewardState :=
  match draft with
  | none => st
  | some parsed => if parsed < 0 then st else updateUserRewards st userId parsed

inductive RewardEvent where
  | post (u : Nat) (d : Int)
  | redeem (u : Nat) (d : Int)
  | approve (idx : Nat)
  | cancelEntry (idx : Nat)
  | adminSet (u : Nat) (x : Int)
deriving DecidableEq, Repr

/-- Modelled from the spec: the RewardLedger engine is absent from the
source tree.  Spec 4.6: a qualifying event appends a posted entry, a
redemption appends a pending entry, a staff decision flips a pending entry
to fulfilled (balance-affecting) or cancelled (balance unaffected), and an
admin rewards adjustment appends a posted manual-adjustment entry; the
displayed balance moves exactly with the entries that count toward it. -/
def rewardStep (st : RewardState) : RewardEvent → RewardState
  | RewardEvent.post u d =>
      { ledger := st.ledger ++
          [{ user := u, delta := d, source := LedgerSource.reportConfirmed,
              entryStatus := LedgerStatus.posted }]
        displayed := bump st.displayed u d }
  | RewardEvent.redeem u d =>
      { ledger := st.ledger ++
          [{ user := u, delta := d, source := LedgerSource.redemption,
              entryStatus := LedgerStatus.pending }]
        displayed := st.displayed }
  | RewardEvent.approve idx =>
      match st.ledger[idx]? with
      | some e =>
          if e.entryStatus = LedgerStatus.pending then
            { ledger := st.ledger.set idx { e with entryStatus := LedgerStatus.fulfilled }
              displayed := bump st.displayed e.user e.delta }
          else st
      | none => st
  | RewardEvent.cancelEntry idx =>
      match st.ledger[idx]? with
      | some e =>
          if e.entryStatus = LedgerStatus.pending then
            { ledger := st.ledger.set idx { e with entryStatus := LedgerStatus.cancelled }
              displayed := st.displayed }
          else st
      | none => st
  | RewardEvent.adminSet u x => updateUserRewards st u x

def runRewards (st : RewardState) (evs : List RewardEvent) : RewardState :=
  evs.foldl rewardStep st

theorem ledgerBalance_append (l : List RewardLedgerEntry) (e : RewardLedgerEntry) (u : Nat) :
    ledgerBalance (l ++ [e]) u = ledgerBalance l u + entryContribution u e := by
  induction l with
  | nil => simp [ledgerBalance]
  | cons hd tl ih => simp [ledgerBalance, ih]; ring

theorem ledgerBalance_set (l : List RewardLedgerEntry) (idx : Nat)
    (e e2 : RewardLedgerEntry) (h : l[idx]? = some e) (u : Nat) :
    ledgerBalance (l.set idx e2) u
      = ledgerBalance l u - entryContribution u e + entryContribution u e2 := by
  induction l generalizing idx with
  | nil => simp at h
  | cons hd tl ih =>
    cases idx with
    | zero =>
      simp at h
      subst h
      simp [ledgerBalance]
      ring
    | succ k =>
      simp at h
      simp [ledgerBalance, ih k h]
      ring

theorem entryContribution_pending (u : Nat) (e : RewardLedgerEntry)
    (hp : e.entryStatus = LedgerStatus.pending) : entryContribution u e = 0 := by
  simp [entryContribution, countsTowardBalance, hp]

/-- The displayed balance of every user is the sum of that user's posted
and fulfilled deltas. -/
def balancesDerived (st : RewardState) : Prop :=
  ∀ u, st.displayed u = ledgerBalance st.ledger u

theorem balancesDerived_updateUserRewards (st : RewardState) (u : Nat) (x : Int)
    (h : balancesDerived st) : balancesDerived (updateUserRewards st u x) := by
  intro v
  have hv := h v
  by_cases huv : v = u
  · subst huv
    simp [updateUserRewards, bump, ledgerBalance_append, hv, entryContribution,
      countsTowardBalance]
  · simp [updateUserRewards, bump, ledgerBalance_append, hv, entryContribution,
      countsTowardBalance, huv]
    exact fun hc => absurd hc.symm huv

theorem balancesDerived_step (st : RewardState) (ev : RewardEvent)
    (h : balancesDerived st) : balancesDerived (rewardStep st ev) := by
  cases ev with
  | post u d =>
    intro v
    have hv := h v
    by_cases huv : v = u
    · subst huv
      simp [rewardStep, bump, ledgerBalance_append, hv, entryContribution,
        countsTowardBalance]
    · simp [rewardStep, bump, ledgerBalance_append, hv, entryContribution,
        countsTowardBalance, huv]
      exact fun hc => absurd hc.symm huv
  | redeem u d =>
    intro v
    have hv := h v
    simp [rewardStep, ledgerBalance_append, hv, entryContribution, countsTowardBalance]
  | approve idx =>
    cases hget : st.ledger[idx]? with
    | none => simpa [rewardStep, hget] using h
    | some e =>
      by_cases hp : e.entryStatus = LedgerStatus.pending
      · intro v
        have hset := ledgerBalance_set st.ledger idx e
          { e with entryStatus := LedgerStatus.fulfilled } hget v
        have hv := h v
        simp only [rewardStep, hget, hp, if_pos]
        rw [hset, entryContribution_pending v e hp]
        by_cases huv : v = e.user
        · subst huv
          simp [bump, hv, entryContribution, countsTowardBalance]
        · simp [bump, hv, entryContribution, countsTowardBalance, huv]
          exact fun hc => absurd hc.symm huv
      · simpa [rewardStep, hget, hp] using h
  | cancelEntry idx =>
    cases hget : st.ledger[idx]? with
    | none => simpa [rewardStep, hget] using h
    | some e =>
      by_cases hp : e.entryStatus = LedgerStatus.pending
      · intro v
        have hset := ledgerBalance_set st.ledger idx e
          { e with entryStatus := LedgerStatus.cancelled } hget v
        have hv := h v
        simp only [rewardStep, hget, hp, if_pos]
        rw [hset, entryContribution_pending v e hp]
        simp [hv, entryContribution, countsTowardBalance]
      · simpa [rewardStep, hget, hp] using h
  | adminSet u x =>
    exact balancesDerived_updateUserRewards st u x h

theorem balancesDerived_runRewards (st : RewardState) (evs : List RewardEvent)
    (h : balancesDerived st) : balancesDerived (runRewards st evs) := by
  induction evs generalizing st with
  | nil => exact h
  | cons ev rest ih => exact ih (rewardStep st ev) (balancesDerived_step st ev h)

/-- Claim C6: under every history of reward events — posted awards, pending
redemptions, staff approvals and cancellations, and admin rewards
adjustments — each user's displayed balance always equals the sum of that
user's posted and fulfilled ledger deltas; append is the only
balance-affecting mutation: the admin adjustment realises the requested
absolute value by appending one posted manual-adjustment entry (the prior
ledger is a prefix of the new one), and the mobile client sends it only
for a non-negative draft. -/
theorem c6_balance_is_ledger_sum :
    (∀ (st : RewardState) (evs : List RewardEvent), balancesDerived st →
      ∀ u, (runRewards st evs).displayed u = ledgerBalance (runRewards st evs).ledger u) ∧
    (∀ (st : RewardState) (u : Nat) (x : Int), balancesDerived st →
      (updateUserRewards st u x).displayed u = x ∧
      ledgerBalance (updateUserRewards st u x).ledger u = x ∧
      (updateUserRewards st u x).ledger
        = st.ledger ++
            [{ user := u, delta := x - ledgerBalance st.ledger u,
                source := LedgerSource.manualAdjustment,
                entryStatus := LedgerStatus.posted }]) ∧
    (∀ (st : RewardState) (u : Nat) (x : Int), x < 0 →
      handleRewardSave st u (some x) = st) := by
  refine ⟨fun st evs h => balancesDerived_runRewards st evs h, ?_, ?_⟩
  · intro st u x h
    refine ⟨?_, ?_, rfl⟩
    · simp [updateUserRewards, bump, h u]
    · simp [updateUserRewards, ledgerBalance_append, entryContribution, countsTowardBalance]
  · intro st u x hx
    simp [handleRewardSave, hx]

/-- Witness for claim C6: a posted award, a pending redemption, its
approval and an admin adjustment leave the displayed balance equal to the
ledger sum; the adjustment lands the balance on the requested value by
appending; a negative admin draft is not sent. -/
theorem c6_balance_is_ledger_sum_witness :
    (runRewards { ledger := [], displayed := fun _ => 0 }
        [RewardEvent.post 1 5, RewardEvent.redeem 1 (-3), RewardEvent.approve 1,
          RewardEvent.adminSet 1 10]).displayed 1
      = ledgerBalance (runRewards { ledger := [], displayed := fun _ => 0 }
        [RewardEvent.post 1 5, RewardEvent.redeem 1 (-3), RewardEvent.approve 1,
          RewardEvent.adminSet 1 10]).ledger 1 ∧
    (updateUserRewards { ledger := [], displayed := fun _ => 0 } 1 10).displayed 1 = 10 ∧
    handleRewardSave { ledger := [], displayed := fun _ => 0 } 1 (some (-2))
      = { ledger := [], displayed := fun _ => 0 } :=
  ⟨c6_balance_is_ledger_sum.1 { ledger := [], displayed := fun _ => 0 }
      [RewardEvent.post 1 5, RewardEvent.redeem 1 (-3), RewardEvent.approve 1,
        RewardEvent.adminSet 1 10]
      (fun u => rfl) 1,
    (c6_balance_is_ledger_sum.2.1 { ledger := [], displayed := fun _ => 0 } 1 10
      (fun u => rfl)).1,
    c6_balance_is_ledger_sum.2.2 { ledger := [], displayed := fun _ => 0 } 1 (-2)
      (by norm_num)⟩


/-! ## Deduplication of submitted reports -/

inductive IncidentType where
  | community
  | police
  | publicOrder
deriving DecidableEq, Repr

structure Report where
  content : String
  reporter : Nat
  itype : IncidentType
  time : Nat
  lat : Int
  lng : Int
deriving DecidableEq, Repr

structure MergedFollowUp where
  content : String
  reporter : Nat
deriving DecidableEq, Repr

structure DedupIncident where
  description : String
  reporter : Nat
  itype : IncidentType
  createdAt : Nat
  lat : Int
  lng : Int
  status : Status
  mergedInto : Option Nat
  followUps : List MergedFollowUp
deriving DecidableEq, Repr

/-- Tunable dedup window (spec 4.2: a bounded recent window of a few hours). -/
def dedupWindowMinutes : Nat := 180

/-- Tunable squared proximity radius in abstract grid units (spec 4.2). -/
def proximityRadiusSq : Int := 100

/-- Modelled from the spec: the DeduplicationMatcher is absent from the
source tree.  Spec 4.2: a candidate prior incident is non-merged,
non-resolved, of the same incident_type, created within the recent window,
spatially close, and content-similar; the similarity metric is a tunable,
modelled here as content equality. -/
def isCandidate (r : Report) (i : DedupIncident) : Prop :=
  i.mergedInto = none ∧ i.status ≠ Status.resolved ∧ i.itype = r.itype ∧
  i.createdAt ≤ r.time ∧ r.time - i.createdAt ≤ dedupWindowMinutes ∧
  (r.lat - i.lat) ^ 2 + (r.lng - i.lng) ^ 2 ≤ proximityRadiusSq ∧
  i.description = r.content

instance (r : Report) (i : DedupIncident) : Decidable (isCandidate r i) := by
  unfold isCandidate
  infer_instance

/-- Best candidate (index and incident) starting at offset `k`: among the
candidates the one with the least created_at, ties broken in favour of the
earlier position (spec 4.2: ties broken by earliest created_at, canonical
incident is the earliest-created). -/
def findMatchFrom (r : Report) : List DedupIncident → Nat → Option (Nat × DedupIncident)
  | [], _ => none
  | i :: rest, k =>
      if isCandidate r i then
        match findMatchFrom r rest (k + 1) with
        | none => some (k, i)
        | some q => if q.2.createdAt < i.createdAt then some q else some (k, i)
      else findMatchFrom r rest (k + 1)

def findMatch (s : List DedupIncident) (r : Report) : Option (Nat × DedupIncident) :=
  findMatchFrom r s 0

/-- Spec 4.2: the content + reporter + incident triple is deduplicated. -/
def hasTriple (i : DedupIncident) (r : Report) : Bool :=
  i.followUps.any (fun f => f.content == r.content && f.reporter == r.reporter)

def addMergedFollowUp (i : DedupIncident) (r : Report) : DedupIncident :=
  { i with followUps := i.followUps ++ [{ content := r.content, reporter := r.reporter }] }

def mergeAt : List DedupIncident → Nat → Report → List DedupIncident
  | [], _, _ => []
  | i :: rest, 0, r => addMergedFollowUp i r :: rest
  | i :: rest, Nat.succ k, r => i :: mergeAt rest k r

def newIncident (r : Report) : DedupIncident :=
  { description := r.content
    reporter := r.reporter
    itype := r.itype
    createdAt := r.time
    lat := r.lat
    lng := r.lng
    status := Status.unverified
    mergedInto := none
    followUps := [] }

/-- Modelled from the spec: submission runs the DeduplicationMatcher
(spec 4.2 and the data-flow in spec 2): a strong match turns the report
into a FollowUp on the canonical incident unless its content + reporter
triple is already recorded there; no match creates a new incident. -/
def submitReport (s : List DedupIncident) (r : Report) : List DedupIncident :=
  match findMatch s r with
  | some q => if hasTriple q.2 r then s else mergeAt s q.1 r
  | none => s ++ [newIncident r]

theorem isCandidate_addMergedFollowUp (r r2 : Report) (i : DedupIncident) :
    isCandidate r (addMergedFollowUp i r2) ↔ isCandidate r i := by
  simp [isCandidate, addMergedFollowUp]

theorem hasTriple_addMergedFollowUp (i : DedupIncident) (r : Report) :
    hasTriple (addMergedFollowUp i r) r = true := by
  simp [hasTriple, addMergedFollowUp]

theorem isCandidate_newIncident (r : Report) : isCandidate r (newIncident r) := by
  refine ⟨rfl, by simp [newIncident], rfl, Nat.le_refl _, by simp [newIncident], ?_, rfl⟩
  simp [newIncident, proximityRadiusSq]

theorem hasTriple_newIncident (r : Report) : hasTriple (newIncident r) r = false := rfl

theorem mergeAt_length (s : List DedupIncident) (j : Nat) (r : Report) :
    (mergeAt s j r).length = s.length := by
  induction s generalizing j with
  | nil => cases j <;> rfl
  | cons i rest ih =>
    cases j with
    | zero => simp [mergeAt]
    | succ k => simp [mergeAt, ih k]

theorem findMatchFrom_idx_ge (r : Report) (s : List DedupIncident) :
    ∀ (k : Nat) (q : Nat × DedupIncident), findMatchFrom r s k = some q → k ≤ q.1 := by
  induction s with
  | nil =>
    intro k q h
    simp [findMatchFrom] at h
  | cons i rest ih =>
    intro k q h
    by_cases hc : isCandidate r i
    · cases hb : findMatchFrom r rest (k + 1) with
      | none =>
        rw [findMatchFrom, if_pos hc, hb] at h
        have h2 : some (k, i) = some q := h
        injection h2 with h3
        subst h3
        exact Nat.le_refl k
      | some p =>
        have hp := ih (k + 1) p hb
        rw [findMatchFrom, if_pos hc, hb] at h
        have h2 : (if p.2.createdAt < i.createdAt then some p else some (k, i)) = some q := h
        by_cases hlt : p.2.createdAt < i.createdAt
        · rw [if_pos hlt] at h2
          injection h2 with h3
          subst h3
          omega
        · rw [if_neg hlt] at h2
          injection h2 with h3
          subst h3
          exact Nat.le_refl k
    · rw [findMatchFrom, if_neg hc] at h
      have hge := ih (k + 1) q h
      omega

theorem addMergedFollowUp_createdAt (i : DedupIncident) (r : Report) :
    (addMergedFollowUp i r).createdAt = i.createdAt := rfl

theorem findMatchFrom_mergeAt (r r2 : Report) (s : List DedupIncident) :
    ∀ (k j : Nat),
      findMatchFrom r (mergeAt s j r2) k
        = Option.map
            (fun q => if q.1 = k + j then (q.1, addMergedFollowUp q.2 r2) else q)
            (findMatchFrom r s k) := by
  induction s with
  | nil =>
    intro k j
    cases j <;> simp [mergeAt, findMatchFrom]
  | cons i rest ih =>
    intro k j
    cases j with
    | zero =>
      simp only [mergeAt, Nat.add_zero]
      by_cases hc : isCandidate r i
      · have hc2 : isCandidate r (addMergedFollowUp i r2) :=
          (isCandidate_addMergedFollowUp r r2 i).2 hc
        cases hb : findMatchFrom r rest (k + 1) with
        | none => simp [findMatchFrom, hc, hc2, hb]
        | some p =>
          have hge := findMatchFrom_idx_ge r rest (k + 1) p hb
          have hne : ¬ p.1 = k := by omega
          by_cases hlt : p.2.createdAt < i.createdAt
          · simp [findMatchFrom, hc, hc2, hb, hlt, hne, addMergedFollowUp_createdAt]
          · simp [findMatchFrom, hc, hc2, hb, hlt, addMergedFollowUp_createdAt]
      · have hc2 : ¬ isCandidate r (addMergedFollowUp i r2) := fun hx =>
          hc ((isCandidate_addMergedFollowUp r r2 i).1 hx)
        cases hb : findMatchFrom r rest (k + 1) with
        | none => simp [findMatchFrom, hc, hc2, hb]
        | some p =>
          have hge := findMatchFrom_idx_ge r rest (k + 1) p hb
          have hne : ¬ p.1 = k := by omega
          simp [findMatchFrom, hc, hc2, hb, hne]
    | succ jj =>
      have harith : k + 1 + jj = k + (jj + 1) := by omega
      have hm := ih (k + 1) jj
      rw [harith] at hm
      simp only [mergeAt]
      by_cases hc : isCandidate r i
      · cases hb : findMatchFrom r rest (k + 1) with
        | none =>
          have hm2 : findMatchFrom r (mergeAt rest jj r2) (k + 1) = none := by
            rw [hm, hb]
            rfl
          have hne : ¬ k = k + (jj + 1) := by omega
          simp [findMatchFrom, hc, hb, hm2, hne]
        | some p =>
          have hm2 : findMatchFrom r (mergeAt rest jj r2) (k + 1)
              = some (if p.1 = k + (jj + 1) then (p.1, addMergedFollowUp p.2 r2) else p) := by
            rw [hm, hb]
            rfl
          have hne : ¬ k = k + (jj + 1) := by omega
          by_cases hpj : p.1 = k + (jj + 1)
          · by_cases hlt : p.2.createdAt < i.createdAt
            · simp [findMatchFrom, hc, hb, hm2, hpj, hlt, addMergedFollowUp]
            · simp [findMatchFrom, hc, hb, hm2, hpj, hlt, hne, addMergedFollowUp]
          · by_cases hlt : p.2.createdAt < i.createdAt
            · simp [findMatchFrom, hc, hb, hm2, hpj, hlt, addMergedFollowUp]
            · simp [findMatchFrom, hc, hb, hm2, hpj, hlt, hne, addMergedFollowUp]
      · rw [findMatchFrom, if_neg hc, findMatchFrom, if_neg hc, hm]

theorem findMatchFrom_append_none (r : Report) (s : List DedupIncident) :
    ∀ (k : Nat), findMatchFrom r s k = none →
      findMatchFrom r (s ++ [newIncident r]) k = some (k + s.length, newIncident r) := by
  induction s with
  | nil =>
    intro k _
    simp [findMatchFrom, isCandidate_newIncident r]
  | cons i rest ih =>
    intro k h
    by_cases hc : isCandidate r i
    · exfalso
      cases hb : findMatchFrom r rest (k + 1) with
      | none =>
        rw [findMatchFrom, if_pos hc, hb] at h
        exact Option.noConfusion (show some (k, i) = none from h)
      | some p =>
        rw [findMatchFrom, if_pos hc, hb] at h
        have h2 : (if p.2.createdAt < i.createdAt then some p else some (k, i)) = none := h
        by_cases hlt : p.2.createdAt < i.createdAt
        · rw [if_pos hlt] at h2
          exact Option.noConfusion h2
        · rw [if_neg hlt] at h2
          exact Option.noConfusion h2
    · rw [findMatchFrom, if_neg hc] at h
      have hrest := ih (k + 1) h
      have harith : k + 1 + rest.length = k + (rest.length + 1) := by omega
      simp [findMatchFrom, hc, hrest, harith]
theorem submit_merge_stabilizes (s : List DedupIncident) (r : Report)
    (q : Nat × DedupIncident) (h : findMatch s r = some q) :
    submitReport (submitReport s r) r = submitReport s r ∧
    (submitReport s r).length = s.length := by
  by_cases ht : hasTriple q.2 r
  · constructor
    · simp [submitReport, h, ht]
    · simp [submitReport, h, ht]
  · have hstep : submitReport s r = mergeAt s q.1 r := by
      simp [submitReport, h, ht]
    have hfm : findMatch (mergeAt s q.1 r) r = some (q.1, addMergedFollowUp q.2 r) := by
      unfold findMatch at h ⊢
      rw [findMatchFrom_mergeAt r r s 0 q.1, h]
      simp
    have ht2 : hasTriple (addMergedFollowUp q.2 r) r = true :=
      hasTriple_addMergedFollowUp q.2 r
    constructor
    · rw [hstep]
      simp [submitReport, hfm, ht2]
    · rw [hstep]
      exact mergeAt_length s q.1 r

/-- Claim C5: deduplication merge is idempotent: submitting the same report
content a second time never creates a second Incident (the store length is
unchanged by the resubmission, which becomes a FollowUp or is dropped), and
merging the same content again is a no-op because the content + reporter +
incident triple is deduplicated, so no duplicate FollowUps are created. -/
theorem c5_dedup_merge_idempotent (s : List DedupIncident) (r : Report) :
    (submitReport (submitReport s r) r).length = (submitReport s r).length ∧
    submitReport (submitReport (submitReport s r) r) r
      = submitReport (submitReport s r) r := by
  cases h : findMatch s r with
  | some q =>
    obtain ⟨hstab, _⟩ := submit_merge_stabilizes s r q h
    refine ⟨by rw [hstab], ?_⟩
    rw [hstab, hstab]
  | none =>
    have hs1 : submitReport s r = s ++ [newIncident r] := by
      simp [submitReport, h]
    have hfm1 : findMatch (s ++ [newIncident r]) r = some (s.length, newIncident r) := by
      unfold findMatch at h ⊢
      have := findMatchFrom_append_none r s 0 h
      simpa using this
    obtain ⟨hstab, hlen⟩ :=
      submit_merge_stabilizes (s ++ [newIncident r]) r (s.length, newIncident r) hfm1
    constructor
    · rw [hs1]
      exact hlen
    · rw [hs1]
      exact hstab

end CommunitySafetyApp
